import Mathlib

/-!
Verification development for the DRPS catalogue scraper (`scraper.py`).

The scraper is shallowly embedded: Python strings are `List Char`, the HTML
tree returned by BeautifulSoup is the inductive `Node`, the network and the
filesystem are oracles (`net : List Char → Option Node` maps a URL to the
parsed document of a successful response, `none` standing for a
`requests.RequestException` or a non-success status raised by
`raise_for_status`; `wf`/`ioFails` tell which file writes raise `IOError`).
Python exceptions surface as the inductive `PyExc`; the mutable
`self.BASE_URL_CURRENT` attribute is the `baseCurrent` field of
`ScraperState`, threaded explicitly.

Note on the source text: `scraper.py` line 756 (`with open(filename, ...)`)
is mis-indented in the repository, a syntax-level slip; the embedding of
`save_to_json` follows the evident intended indentation (the `with` block
belongs under the `try:` of line 755).
-/

namespace DRPS

/-! ### Python string primitives over `List Char` -/

/-- Python `sub in s` (substring containment). -/
def pyIn (sub : List Char) : List Char → Bool
  | [] => sub.isEmpty
  | c :: cs => sub.isPrefixOf (c :: cs) || pyIn sub cs

/-- Fuelled worker for Python `str.replace` (replace every non-overlapping
occurrence, scanning left to right; the scraper never calls it with an
empty pattern, for which this worker is the identity). The fuel is an
upper bound on the length of the scanned string; `replaceAll` instantiates
it exactly. -/
def replAux (pat rep : List Char) : Nat → List Char → List Char
  | 0, s => s
  | _ + 1, [] => []
  | f + 1, c :: cs =>
    if !pat.isEmpty && pat.isPrefixOf (c :: cs) then
      rep ++ replAux pat rep f ((c :: cs).drop pat.length)
    else
      c :: replAux pat rep f cs

/-- Python `s.replace(pat, rep)`. -/
def replaceAll (s pat rep : List Char) : List Char :=
  replAux pat rep s.length s

/-- Fuelled worker for Python `str.split(sep)` with a non-empty separator. -/
def splitAux (sep : List Char) : Nat → List Char → List (List Char)
  | 0, s => [s]
  | _ + 1, [] => [[]]
  | f + 1, c :: cs =>
    if !sep.isEmpty && sep.isPrefixOf (c :: cs) then
      [] :: splitAux sep f ((c :: cs).drop sep.length)
    else
      match splitAux sep f cs with
      | [] => [[c]]
      | seg :: rest => (c :: seg) :: rest

/-- Python `s.split(sep)`. -/
def splitOnL (sep s : List Char) : List (List Char) :=
  splitAux sep s.length s

/-- Python `s.strip()`: drop leading and trailing whitespace. -/
def stripL (s : List Char) : List Char :=
  ((s.dropWhile Char.isWhitespace).reverse.dropWhile Char.isWhitespace).reverse

/-- Python `s.strip(c)` for a single character `c`. -/
def stripChar (c : Char) (s : List Char) : List Char :=
  ((s.dropWhile (· == c)).reverse.dropWhile (· == c)).reverse

/-- Python `s.lstrip(c)` for a single character `c`. -/
def lstripChar (c : Char) (s : List Char) : List Char :=
  s.dropWhile (· == c)

/-- Python `s.lower()` (ASCII case folding, which is all the scraper needs). -/
def pyLower (s : List Char) : List Char :=
  s.map Char.toLower

/-- Python `a or b` on two lists (first operand if non-empty). -/
def pyOr {α : Type} (a b : List α) : List α :=
  if a.isEmpty then b else a

/-- Python `a or b` on two optional values (first operand if not `None`). -/
def pyOrO {α : Type} (a b : Option α) : Option α :=
  match a with
  | some x => some x
  | none => b

/-! ### The course-code regular expression

`re.match(r'^[A-Z]{2,}[0-9]{4,}$', s)` and
`re.compile(r'[A-Z]{2,}[0-9]{4,}').search(s)`.  Because the letter and digit
character classes are disjoint, greedy matching with backtracking at a given
start position succeeds exactly when the maximal uppercase run there has
length at least 2 and the maximal digit run right after it has length at
least 4, and the matched text is the concatenation of the two maximal runs. -/

/-- Match of `[A-Z]{2,}[0-9]{4,}` anchored at the start of `s`: the matched
text (group 0), if any. -/
def codeAt (s : List Char) : Option (List Char) :=
  let us := s.takeWhile Char.isUpper
  if 2 ≤ us.length then
    let ds := (s.drop us.length).takeWhile Char.isDigit
    if 4 ≤ ds.length then some (us ++ ds) else none
  else none

/-- `re.search` for `[A-Z]{2,}[0-9]{4,}`: group 0 of the leftmost match. -/
def searchCode : List Char → Option (List Char)
  | [] => none
  | c :: cs =>
    match codeAt (c :: cs) with
    | some m => some m
    | none => searchCode cs

/-- Full match of `[A-Z]{2,}[0-9]{4,}` against the whole string. -/
def coreFull (s : List Char) : Bool :=
  let us := s.takeWhile Char.isUpper
  let rest := s.drop us.length
  2 ≤ us.length && 4 ≤ rest.length && rest.all Char.isDigit

/-- Does the string end with a newline character? -/
def endsNL (s : List Char) : Bool :=
  match s.getLast? with
  | some c => c == '\n'
  | none => false

/-- Python `re.match(r'^[A-Z]{2,}[0-9]{4,}$', s) is not None`: `$` also
matches just before one trailing newline. -/
def pyMatchCode (s : List Char) : Bool :=
  coreFull s || (endsNL s && coreFull s.dropLast)

/-! ### The document model

A parsed HTML document as BeautifulSoup exposes it to the scraper: element
nodes carry a tag name, a class list, an optional `href` attribute and their
children; the only other nodes the scraper looks at are text nodes
(`NavigableString`s).  The root node plays the role of the `BeautifulSoup`
object itself. -/

inductive Node where
  | text : List Char → Node
  | elem : List Char → List (List Char) → Option (List Char) → List Node → Node

/-- A stand-in node for guarded index accesses that cannot miss. -/
def defaultNode : Node := Node.text []

/-- Tag name test (`NavigableString`s have no tag). -/
def isTag (t : List Char) : Node → Bool
  | Node.text _ => false
  | Node.elem tg _ _ _ => tg == t

/-- Membership of a class in the node's `class` attribute. -/
def hasClass (c : List Char) : Node → Bool
  | Node.text _ => false
  | Node.elem _ cl _ _ => cl.contains c

/-- The node's `href` attribute (`tag.get('href')`). -/
def hrefOf : Node → Option (List Char)
  | Node.text _ => none
  | Node.elem _ _ h _ => h

mutual
/-- `tag.text` / `tag.get_text()`: all descendant strings concatenated. -/
def fullText : Node → List Char
  | Node.text s => s
  | Node.elem _ _ _ ch => fullTexts ch
/-- `fullText` over a child list. -/
def fullTexts : List Node → List Char
  | [] => []
  | c :: cs => fullText c ++ fullTexts cs
end

mutual
/-- The descendant strings of a node, in document order. -/
def textFrags : Node → List (List Char)
  | Node.text s => [s]
  | Node.elem _ _ _ ch => textFragsList ch
/-- `textFrags` over a child list. -/
def textFragsList : List Node → List (List Char)
  | [] => []
  | c :: cs => textFrags c ++ textFragsList cs
end

/-- `tag.get_text(strip=True)`: each descendant string stripped, then
concatenated. -/
def getTextStrip (n : Node) : List Char :=
  ((textFrags n).map stripL).flatten

mutual
/-- All strict descendants of a node paired with their path from it,
in document (pre-order) order.  A path is the list of child indices. -/
def subNodes : Node → List (List Nat × Node)
  | Node.text _ => []
  | Node.elem _ _ _ ch => subNodesAux 0 ch
/-- `subNodes` over a child list starting at child index `i`. -/
def subNodesAux (i : Nat) : List Node → List (List Nat × Node)
  | [] => []
  | c :: cs =>
    ([i], c) :: (subNodes c).map (fun pc => (i :: pc.1, pc.2)) ++ subNodesAux (i + 1) cs
end

/-- `soup.find_all(pred)`: strict descendants satisfying `pred`, in document
order. -/
def findAll (p : Node → Bool) (n : Node) : List Node :=
  ((subNodes n).map Prod.snd).filter p

/-- `soup.find(pred)`: the first strict descendant satisfying `pred`. -/
def findFirst (p : Node → Bool) (n : Node) : Option Node :=
  (findAll p n).head?

/-- The node at a path, if the path is valid. -/
def nodeAt : Node → List Nat → Option Node
  | n, [] => some n
  | Node.text _, _ :: _ => none
  | Node.elem _ _ _ ch, i :: rest =>
    match ch.get? i with
    | some c => nodeAt c rest
    | none => none

/-- `tag.string`: the unique string of a tag that has exactly one child,
descending through unique-child tags; `None` otherwise. -/
def nodeString : Node → Option (List Char)
  | Node.text s => some s
  | Node.elem _ _ _ [c] => nodeString c
  | Node.elem _ _ _ _ => none

/-! ### The page fetcher (`DRPSScraper.fetch_page`) -/

/-- Python exceptions the embedded scraper can raise. -/
inductive PyExc where
  | requestException : List Char → PyExc
  | ioError : List Char → PyExc
  | attributeError : PyExc
deriving DecidableEq, Repr

/-- The mutable scraper session state: `self.BASE_URL_CURRENT` plus the two
constructor switches. -/
structure ScraperState where
  baseCurrent : List Char
  debug : Bool
  tryPreviousYear : Bool
deriving DecidableEq, Repr

/-- Class constant `BASE_URL_CURRENT` (initial value of the mutable
attribute). -/
def BASE_URL_CURRENT : List Char := "http://www.drps.ed.ac.uk/24-25".data

/-- Class constant `BASE_URL_PREVIOUS`. -/
def BASE_URL_PREVIOUS : List Char := "http://www.drps.ed.ac.uk/23-24".data

/-- Class constant `SCHOOLS_INDEX_URL_CURRENT` (computed once, from the
initial current base). -/
def SCHOOLS_INDEX_URL_CURRENT : List Char := BASE_URL_CURRENT ++ "/dpt/cx_schindex.htm".data

/-- Class constant `SCHOOLS_INDEX_URL_PREVIOUS`. -/
def SCHOOLS_INDEX_URL_PREVIOUS : List Char := BASE_URL_PREVIOUS ++ "/dpt/cx_schindex.htm".data

/-- The debug capture file for a URL:
`url.replace("http://","").replace("https://","").replace("/","_").replace(".","_")`
inside `scraped_data/debug/`, with the `.html` suffix. -/
def debugFilename (url : List Char) : List Char :=
  "scraped_data/debug/".data ++
    replaceAll (replaceAll (replaceAll (replaceAll url ("http://".data) [])
      ("https://".data) []) ("/".data) ("_".data)) (".".data) ("_".data) ++
    ".html".data

/-- The initial scraper state as `main()` constructs it
(`debug=True, try_previous_year=True`). -/
def initState : ScraperState :=
  { baseCurrent := BASE_URL_CURRENT, debug := true, tryPreviousYear := true }

/-- `DRPSScraper.fetch_page`.  `net url` is the parsed document of a
successful `session.get(url)` + `raise_for_status()`, `none` if that pair
raises `requests.RequestException`; `wf f` tells whether writing the debug
file `f` raises `IOError`.  Only `requests.RequestException` is caught by
the handlers in the source, so a debug-write failure escapes as `ioError`.
The second component lists the URLs passed to `session.get`, in order. -/
def fetchPage (net : List Char → Option Node) (wf : List Char → Bool)
    (st : ScraperState) (url : List Char) :
    Except PyExc (Node × ScraperState) × List (List Char) :=
  match net url with
  | some doc =>
    if st.debug && wf (debugFilename url) then
      (Except.error (PyExc.ioError (debugFilename url)), [url])
    else
      (Except.ok (doc, st), [url])
  | none =>
    if st.tryPreviousYear && pyIn st.baseCurrent url then
      let url2 := replaceAll url st.baseCurrent BASE_URL_PREVIOUS
      match net url2 with
      | some doc =>
        if st.debug && wf (debugFilename url2) then
          (Except.error (PyExc.ioError (debugFilename url2)), [url, url2])
        else
          (Except.ok (doc, { st with baseCurrent := BASE_URL_PREVIOUS }), [url, url2])
      | none => (Except.error (PyExc.requestException url), [url, url2])
    else
      (Except.error (PyExc.requestException url), [url])

/-! ### Python dictionaries (insertion-ordered association lists) -/

/-- A Python `dict` with string keys and values, in insertion order. -/
def Dict : Type := List (List Char × List Char)

/-- `d[k] = v`: replace the value at an existing key in place, else append. -/
def dset : Dict → List Char → List Char → Dict
  | [], k, v => [(k, v)]
  | e :: es, k, v => if e.1 == k then (k, v) :: es else e :: dset es k v

/-- `d.get(k)`. -/
def dlookup (k : List Char) : Dict → Option (List Char)
  | [] => none
  | e :: es => if e.1 == k then some e.2 else dlookup k es

/-- `a.update(b)`: set every key of `b` into `a`, in `b`'s order. -/
def dupdate (a b : Dict) : Dict :=
  b.foldl (fun acc e => dset acc e.1 e.2) a

/-! ### Record shapes built by the index and subject parsers -/

/-- A `school_info` dict (its five keys are fixed by the source). -/
structure SchoolInfo where
  name : List Char
  url : List Char
  college : List Char
  schedule : List Char
  code : List Char
deriving DecidableEq, Repr

/-- A `subject_info` dict (its five keys are fixed by the source). -/
structure SubjectInfo where
  name : List Char
  url : List Char
  school_name : List Char
  school_code : List Char
  college : List Char
deriving DecidableEq, Repr

/-- Resolution of a relative `href` in the source:
`"/".join(page_url.split("/")[:-1]) + "/" + href.lstrip('/')`. -/
def relResolve (pageUrl h : List Char) : List Char :=
  List.intercalate ("/".data) (splitOnL ("/".data) pageUrl).dropLast ++
    "/".data ++ lstripChar '/' h

/-- The `"(Schedule "` split of a link text into school name and schedule
code, exactly as the source performs it. -/
def splitSchedule (text : List Char) : List Char × List Char :=
  if pyIn ("(Schedule ".data) text then
    let parts := splitOnL ("(Schedule ".data) text
    (stripL (parts.getD 0 []), "Schedule ".data ++ stripChar ')' (parts.getD 1 []))
  else
    (text, [])

/-- The school code parsed out of an href: `href.split("cx_s_")[-1]` with
`".htm"` removed, when `"cx_s_"` occurs; `""` otherwise. -/
def schoolCodeOf (h : List Char) : List Char :=
  if pyIn ("cx_s_".data) h then
    replaceAll ((splitOnL ("cx_s_".data) h).getLastD []) (".htm".data) []
  else []

/-! ### Course-detail extraction (`parse_course_details` and helpers) -/

/-- A `th` or `td` cell, as `row.find_all(['th', 'td'])` selects them. -/
def isThOrTd (n : Node) : Bool :=
  isTag ("th".data) n || isTag ("td".data) n

/-- `_extract_course_outline`. -/
def extractOutline (table : Node) (d : Dict) : Dict :=
  (findAll (isTag ("tr".data)) table).foldl (fun d row =>
    let cells := findAll isThOrTd row
    if cells.length < 2 then d else
    let header := getTextStrip (cells.getD 0 defaultNode)
    let value := getTextStrip (cells.getD 1 defaultNode)
    if pyIn ("School".data) header then dset d ("school".data) value
    else if pyIn ("Credit level".data) header then dset d ("credit_level".data) value
    else if pyIn ("SCQF Credits".data) header then dset d ("scqf_credits".data) value
    else if pyIn ("ECTS Credits".data) header then dset d ("ects_credits".data) value
    else if pyIn ("Summary".data) header then dset d ("summary".data) value
    else if pyIn ("Course description".data) header then dset d ("course_description".data) value
    else if pyIn ("College".data) header then dset d ("college_detail".data) value
    else if pyIn ("Availability".data) header then dset d ("availability_detail".data) value
    else d) d

/-- `_extract_entry_requirements`. -/
def extractEntryReq (table : Node) (d : Dict) : Dict :=
  (findAll (isTag ("tr".data)) table).foldl (fun d row =>
    let cells := findAll isThOrTd row
    if cells.length < 2 then d else
    let header := getTextStrip (cells.getD 0 defaultNode)
    let value := getTextStrip (cells.getD 1 defaultNode)
    if pyIn ("Pre-requisites".data) header then dset d ("pre_requisites".data) value
    else if pyIn ("Co-requisites".data) header then dset d ("co_requisites".data) value
    else if pyIn ("Prohibited Combinations".data) header then
      dset d ("prohibited_combinations".data) value
    else if pyIn ("Other requirements".data) header then dset d ("other_requirements".data) value
    else if pyIn ("Additional Costs".data) header then dset d ("additional_costs".data) value
    else d) d

/-- `_extract_delivery_info`. -/
def extractDelivery (table : Node) (d : Dict) : Dict :=
  (findAll (isTag ("tr".data)) table).foldl (fun d row =>
    let cells := findAll isThOrTd row
    if cells.length < 2 then d else
    let header := getTextStrip (cells.getD 0 defaultNode)
    let value := getTextStrip (cells.getD 1 defaultNode)
    if pyIn ("Academic year".data) header then dset d ("academic_year".data) value
    else if pyIn ("Course Start".data) header then dset d ("course_start".data) value
    else if pyIn ("Timetable".data) header then dset d ("timetable".data) value
    else if pyIn ("Learning and Teaching activities".data) header then
      dset d ("learning_activities".data) value
    else if pyIn ("Quota".data) header then dset d ("quota".data) value
    else d) d

/-- `_extract_visiting_students_info`. -/
def extractVisiting (table : Node) (d : Dict) : Dict :=
  (findAll (isTag ("tr".data)) table).foldl (fun d row =>
    let cells := findAll isThOrTd row
    if cells.length < 2 then d else
    let header := getTextStrip (cells.getD 0 defaultNode)
    let value := getTextStrip (cells.getD 1 defaultNode)
    if pyIn ("Pre-requisites".data) header then dset d ("visiting_prerequisites".data) value
    else if pyIn ("High Demand Course".data) header then dset d ("high_demand".data) value
    else d) d

/-- `_extract_generic_table_info`: the key is derived from the header text
(`lower`, spaces and slashes to underscores, parentheses removed). -/
def extractGeneric (table : Node) (d : Dict) : Dict :=
  (findAll (isTag ("tr".data)) table).foldl (fun d row =>
    let cells := findAll isThOrTd row
    if cells.length < 2 then d else
    let header := getTextStrip (cells.getD 0 defaultNode)
    let value := getTextStrip (cells.getD 1 defaultNode)
    let key := replaceAll (replaceAll (replaceAll (replaceAll (pyLower header)
      (" ".data) ("_".data)) ("/".data) ("_".data)) ("(".data) []) (")".data) []
    dset d key value) d

/-- Does `tag.string` exist and contain `pat`?  This is the semantics of the
`text=re.compile(pat)` filter combined with a tag name. -/
def stringHas (pat : List Char) (n : Node) : Bool :=
  match nodeString n with
  | some s => pyIn pat s
  | none => false

/-- `soup.find('td', text=...) or soup.find('th', text=...)`, followed by
`.find_next('td')` on the hit: the stripped text of the first `td` after the
matching cell in document order, if both exist. -/
def findCellValue (root : Node) (pat : List Char) : Option (List Char) :=
  let all := (subNodes root).map Prod.snd
  let idxO := pyOrO
    (all.findIdx? (fun n => isTag ("td".data) n && stringHas pat n))
    (all.findIdx? (fun n => isTag ("th".data) n && stringHas pat n))
  match idxO with
  | none => none
  | some i =>
    match (all.drop (i + 1)).find? (isTag ("td".data)) with
    | some cell => some (getTextStrip cell)
    | none => none

/-- The pure part of `DRPSScraper.parse_course_details`: the detail dict
collected from an already fetched course page. -/
def detailDictOf (soup : Node) : Dict :=
  let d0 : Dict :=
      match pyOrO (findFirst (isTag ("h1".data)) soup) (findFirst (isTag ("h2".data)) soup) with
      | some h => dset [] ("full_title".data) (getTextStrip h)
      | none => []
    let d1 := (findAll (isTag ("table".data)) soup).foldl (fun d table =>
      let captionText :=
        match findFirst (isTag ("caption".data)) table with
        | some cap => getTextStrip cap
        | none => []
      if pyIn ("Course Outline".data) captionText then extractOutline table d
      else if pyIn ("Entry Requirements".data) captionText then extractEntryReq table d
      else if pyIn ("Course Delivery Information".data) captionText then extractDelivery table d
      else if pyIn ("Information for Visiting Students".data) captionText then
        extractVisiting table d
      else extractGeneric table d) d0
    let d2 :=
      match findCellValue soup ("Course description".data) with
      | some v => dset d1 ("course_description".data) v
      | none => d1
    match findCellValue soup ("Summary".data) with
    | some v => dset d2 ("summary".data) v
    | none => d2

/-- `DRPSScraper.parse_course_details`: fetch the course page and collect
the detail dict; any exception inside (in particular a fetch failure) is
caught and yields the empty dict. -/
def parseCourseDetails (net : List Char → Option Node) (wf : List Char → Bool)
    (st : ScraperState) (url : List Char) : Dict × ScraperState :=
  match (fetchPage net wf st url).1 with
  | Except.error _ => ([], st)
  | Except.ok (soup, st1) => (detailDictOf soup, st1)

/-! ### Course extraction (`DRPSScraper.parse_courses`) -/

/-- The href-resolution conditional the source repeats at every link:
absolute hrefs pass through, relative ones resolve against the page. -/
def resolveHref (pageUrl h : List Char) : List Char :=
  if ("http".data).isPrefixOf h then h else relResolve pageUrl h

/-- The guarded cell read the source repeats per column:
`cells[i].get_text(strip=True) if i < len(cells) else ""`. -/
def cellText (cells : List Node) (i : Nat) : List Char :=
  if i < cells.length then getTextStrip (cells.getD i defaultNode) else []

/-- Course name and URL from the name cell: prefer the link text and
resolve its href; fall back to the cell text with an empty URL. -/
def nameAndUrl (pageUrl : List Char) (cells : List Node) (i : Nat) :
    List Char × List Char :=
  match (if i < cells.length then some (cells.getD i defaultNode) else none) with
  | none => ([], [])
  | some cell =>
    match findFirst (isTag ("a".data)) cell with
    | some link =>
      (getTextStrip link,
        match hrefOf link with
        | some h => resolveHref pageUrl h
        | none => [])
    | none => (getTextStrip cell, [])

/-- The `course_info` dict literal of the source, in its key order. -/
def mkCourseDict (code name url availability period credits : List Char)
    (subj : SubjectInfo) : Dict :=
  [(("code".data), code), (("name".data), name), (("url".data), url),
   (("availability".data), availability), (("period".data), period),
   (("credits".data), credits), (("subject".data), subj.name),
   (("school_name".data), subj.school_name), (("college".data), subj.college)]

/-- One `tr` of a recognised course table: the body of the row loop of
`parse_courses`, filters and detail merge included. -/
def processRow (net : List Char → Option Node) (wf : List Char → Bool)
    (url : List Char) (subj : SubjectInfo)
    (codeIdx availIdx nameIdx periodIdx creditsIdx : Nat)
    (p : List Dict × ScraperState) (row : Node) : List Dict × ScraperState :=
  let cells := findAll (isTag ("td".data)) row
  if cells.length ≤ max codeIdx nameIdx then p else
  let courseCode := cellText cells codeIdx
  let availability := cellText cells availIdx
  let nameUrl := nameAndUrl url cells nameIdx
  let courseName := nameUrl.1
  let courseUrl := nameUrl.2
  let period := cellText cells periodIdx
  let credits := cellText cells creditsIdx
  if courseCode.isEmpty || courseName.isEmpty then p
  else if pyIn ("course".data) (pyLower courseCode) || pyIn ("code".data) (pyLower courseCode) then p
  else if pyIn ("key".data) (pyLower courseCode) || pyIn ("legend".data) (pyLower courseCode) ||
      pyIn ("available".data) (pyLower courseCode) || pyIn ("not available".data) (pyLower courseCode) then p
  else if pyMatchCode courseCode then
    let info := mkCourseDict courseCode courseName courseUrl availability period credits subj
    if courseUrl.isEmpty then (p.1 ++ [info], p.2)
    else
      let dd := parseCourseDetails net wf p.2 courseUrl
      (p.1 ++ [dupdate info dd.1], dd.2)
  else p

/-- One table of `parse_courses`: header recognition, column-index
resolution, then the row loop. -/
def processTable (net : List Char → Option Node) (wf : List Char → Bool)
    (url : List Char) (subj : SubjectInfo)
    (p : List Dict × ScraperState) (table : Node) : List Dict × ScraperState :=
  let headers := (findAll (isTag ("th".data)) table).map (fun th => pyLower (getTextStrip th))
  let joined := pyLower (List.intercalate (" ".data) headers)
  if headers.isEmpty ||
      !(pyIn ("code".data) joined || pyIn ("course".data) joined || pyIn ("name".data) joined) then p
  else
    let codeIdx := (headers.findIdx? (fun h => pyIn ("code".data) (pyLower h))).getD 0
    let availIdx := (headers.findIdx? (fun h => pyIn ("availability".data) (pyLower h))).getD 1
    let nameIdx := (headers.findIdx? (fun h =>
      pyIn ("course name".data) (pyLower h) || pyIn ("name".data) (pyLower h))).getD 2
    let periodIdx := (headers.findIdx? (fun h => pyIn ("period".data) (pyLower h))).getD 3
    let creditsIdx := (headers.findIdx? (fun h => pyIn ("credit".data) (pyLower h))).getD 4
    (findAll (isTag ("tr".data)) table).foldl
      (processRow net wf url subj codeIdx availIdx nameIdx periodIdx creditsIdx) p

/-- One hyperlink of the fallback scan of `parse_courses`. -/
def processLink (net : List Char → Option Node) (wf : List Char → Bool)
    (url : List Char) (subj : SubjectInfo)
    (p : List Dict × ScraperState) (link : Node) : List Dict × ScraperState :=
  let text := getTextStrip link
  match hrefOf link with
  | none => p
  | some h =>
    if h.isEmpty || text.isEmpty then p
    else if pyIn ("index".data) (pyLower h) || ("#".data).isPrefixOf h then p
    else
      match pyOrO (searchCode text) (searchCode h) with
      | none => p
      | some courseCode =>
        let courseUrl := resolveHref url h
        let info := mkCourseDict courseCode text courseUrl [] [] [] subj
        if courseUrl.isEmpty then (p.1 ++ [info], p.2)
        else
          let dd := parseCourseDetails net wf p.2 courseUrl
          (p.1 ++ [dupdate info dd.1], dd.2)

/-- `DRPSScraper.parse_courses`: fetch the subject page, extract courses
from recognised tables, fall back to a hyperlink scan when the tables
yielded nothing; any exception inside (in particular the subject-page fetch
failing) is caught and yields the empty list. -/
def parseCourses (net : List Char → Option Node) (wf : List Char → Bool)
    (st : ScraperState) (url : List Char) (subj : SubjectInfo) :
    List Dict × ScraperState :=
  match (fetchPage net wf st url).1 with
  | Except.error _ => ([], st)
  | Except.ok (soup, st0) =>
    let tables := pyOr
      (findAll (fun n => isTag ("table".data) n && hasClass ("sitstablegrid".data) n) soup)
      (findAll (isTag ("table".data)) soup)
    let r1 := tables.foldl (processTable net wf url subj) ([], st0)
    if r1.1.isEmpty then
      (findAll (isTag ("a".data)) soup).foldl (processLink net wf url subj) ([], r1.2)
    else r1

/-! ### Subject extraction (`DRPSScraper.parse_school_subjects`) -/

/-- The shared guard-and-build step for one subject link. -/
def processSubjectLink (url : List Char) (sch : SchoolInfo)
    (acc : List SubjectInfo) (link : Node) : List SubjectInfo :=
  let text := getTextStrip link
  match hrefOf link with
  | none => acc
  | some h =>
    if h.isEmpty || text.isEmpty then acc
    else if pyIn ("index".data) (pyLower h) || ("#".data).isPrefixOf h ||
        pyIn ("search".data) (pyLower h) || pyIn ("regulations".data) (pyLower h) then acc
    else
      acc ++ [{ name := text, url := resolveHref url h,
                school_name := sch.name, school_code := sch.code,
                college := sch.college }]

/-- Deduplication by subject name, first occurrence winning. -/
def dedupByName : List SubjectInfo → List (List Char) → List SubjectInfo
  | [], _ => []
  | s :: rest, seen =>
    if seen.contains s.name then dedupByName rest seen
    else s :: dedupByName rest (s.name :: seen)

/-- `DRPSScraper.parse_school_subjects`: fetch the school page, collect
subject links from list items, fall back to the main-content region when
none matched, deduplicate by name; any exception inside (in particular the
fetch failing) is caught and yields the empty list. -/
def parseSchoolSubjects (net : List Char → Option Node) (wf : List Char → Bool)
    (st : ScraperState) (url : List Char) (sch : SchoolInfo) :
    List SubjectInfo × ScraperState :=
  match (fetchPage net wf st url).1 with
  | Except.error _ => ([], st)
  | Except.ok (soup, st1) =>
    let subs := (findAll (isTag ("li".data)) soup).foldl (fun acc item =>
      match findFirst (isTag ("a".data)) item with
      | none => acc
      | some link => processSubjectLink url sch acc link) []
    let subs2 :=
      if subs.isEmpty then
        match pyOrO
          (findFirst (fun n => isTag ("div".data) n && hasClass ("content".data) n) soup)
          (findFirst (fun n => isTag ("td".data) n && hasClass ("content".data) n) soup) with
        | some mc => (findAll (isTag ("a".data)) mc).foldl (processSubjectLink url sch) []
        | none => subs
      else subs
    (dedupByName subs2 [], st1)

/-! ### Index extraction (`DRPSScraper.parse_colleges_and_schools`) -/

/-- The ordered colleges mapping (`colleges` dict of the source). -/
def Colleges : Type := List (List Char × List SchoolInfo)

/-- The three fixed college names, in the order the source lists them. -/
def collegeNames : List (List Char) :=
  ["College of Arts, Humanities and Social Sciences".data,
   "College of Science and Engineering".data,
   "College of Medicine and Veterinary Medicine".data]

/-- The freshly initialised `colleges` dict: each name mapped to `[]`. -/
def initColleges : Colleges :=
  collegeNames.map (fun n => (n, []))

/-- `colleges[college_name].append(school_info)`; the key is always one of
the initialised names, so indexing cannot miss. -/
def colAppend (k : List Char) (v : SchoolInfo) : Colleges → Colleges :=
  List.map (fun e => if e.1 = k then (e.1, e.2 ++ [v]) else e)

/-- Are all three school lists still empty? -/
def allEmpty (c : Colleges) : Bool :=
  c.all (fun e => e.2.isEmpty)

/-- The key list of the colleges mapping. -/
def keysOf (c : Colleges) : List (List Char) :=
  c.map Prod.fst

/-- The first of the fixed college names contained in `s`, if any
(`for name in college_names: if name in s: ...`). -/
def firstCollegeIn (s : List Char) : Option (List Char) :=
  collegeNames.find? (fun nm => pyIn nm s)

/-- `_process_school_list`: walk the list items of a `ul`, build a
`school_info` per usable link and append it to the named college. -/
def processSchoolList (base : List Char) (ul : Node) (collegeName : List Char)
    (cols : Colleges) : Colleges :=
  (findAll (isTag ("li".data)) ul).foldl (fun cols item =>
    match findFirst (isTag ("a".data)) item with
    | none => cols
    | some link =>
      let text := getTextStrip link
      match hrefOf link with
      | none => cols
      | some h =>
        if text.isEmpty || h.isEmpty || ("#".data).isPrefixOf h then cols
        else
          let nmSched := splitSchedule text
          let h2 := if ("http".data).isPrefixOf h then h else lstripChar '/' h
          let full := if ("http".data).isPrefixOf h then h else base ++ "/dpt/".data ++ h2
          colAppend collegeName
            { name := nmSched.1, url := full, college := collegeName,
              schedule := nmSched.2, code := schoolCodeOf h2 } cols) cols

/-- The text nodes `soup.find_all(text=re.compile("College of"))` returns,
with their paths, in document order. -/
def collegeHeaders (root : Node) : List (List Nat × List Char) :=
  (subNodes root).filterMap (fun pn =>
    match pn.2 with
    | Node.text s => if pyIn ("College of".data) s then some (pn.1, s) else none
    | Node.elem _ _ _ _ => none)

/-- `current.find_next_sibling('ul')`: the first later sibling with tag
`ul`, as a node. -/
def nextSiblingUl (root : Node) (p : List Nat) : Option Node :=
  if p.isEmpty then none
  else
    match nodeAt root p.dropLast with
    | some (Node.elem _ _ _ ch) =>
      (ch.drop (p.getLastD 0 + 1)).find? (isTag ("ul".data))
    | _ => none

/-- Fuelled worker for the upward sibling walk of Strategy A
(`while current and current.name != 'ul': ...`).  The fuel is an upper
bound on the remaining path length. -/
def aWalkAux (root : Node) : Nat → List Nat → Option Node
  | 0, _ => none
  | f + 1, p =>
    match nodeAt root p with
    | none => none
    | some cur =>
      if isTag ("ul".data) cur then none
      else
        match nextSiblingUl root p with
        | some u => some u
        | none => if p.isEmpty then none else aWalkAux root f p.dropLast

/-- Strategy A's upward walk from the header's parent: the first sibling
`ul` found while climbing, stopping early when a `ul` ancestor is reached
or the root's parent (`None`) is passed. -/
def aWalk (root : Node) (p : List Nat) : Option Node :=
  aWalkAux root (p.length + 1) p

/-- Strategy A: locate "College of" text nodes, attribute each to a fixed
college name contained in it, and harvest the first sibling `ul` found by
the upward walk from its parent. -/
def stratA (base : List Char) (root : Node) (cols : Colleges) : Colleges :=
  (collegeHeaders root).foldl (fun cols hd =>
    if pyIn ("College of".data) hd.2 && decide (10 < (stripL hd.2).length) then
      match firstCollegeIn hd.2 with
      | none => cols
      | some nm =>
        match aWalk root hd.1.dropLast with
        | some ul => processSchoolList base ul nm cols
        | none => cols
    else cols) cols

/-- The `prev_text` accumulation of Strategy B: prepend the text of each
earlier node (walking `previous_element` backwards) while the accumulated
text stays shorter than 200 characters. -/
def buildPrev : List Node → List Char → List Char
  | [], acc => acc
  | n :: rest, acc =>
    if acc.length < 200 then buildPrev rest (fullText n ++ acc) else acc

/-- Worker for Strategy B: walk all nodes in document order, keeping the
reversed list of already-passed nodes (the `previous_element` chain of the
current node); at each `ul`, attribute it by the first college name
occurring in its `prev_text` window. -/
def stratBAux (base : List Char) (prevRev : List Node) :
    List (List Nat × Node) → Colleges → Colleges
  | [], cols => cols
  | (_, n) :: rest, cols =>
    let cols' :=
      if isTag ("ul".data) n then
        match firstCollegeIn (buildPrev prevRev []) with
        | some nm => processSchoolList base n nm cols
        | none => cols
      else cols
    stratBAux base (n :: prevRev) rest cols'

/-- Strategy B (`# Using alternative approach to find schools`). -/
def stratB (base : List Char) (root : Node) (cols : Colleges) : Colleges :=
  stratBAux base [] (subNodes root) cols

/-- The links `soup.find_all('a', text=re.compile("Schedule"))` returns,
with their paths, in document order. -/
def scheduleLinks (root : Node) : List (List Nat × Node) :=
  (subNodes root).filter (fun pn =>
    isTag ("a".data) pn.2 && stringHas ("Schedule".data) pn.2)

/-- The proper-ancestor paths of a path, innermost first, ending at the
root `[]` (the soup object, which the `current.parent` walk reaches). -/
def ancestorPaths (p : List Nat) : List (List Nat) :=
  (List.range p.length).reverse.map (fun k => p.take k)

/-- The ancestor scan of Strategy C: at each ancestor (innermost first),
the first fixed college name contained in its full text wins. -/
def firstAncestorName (root : Node) : List (List Nat) → Option (List Char)
  | [] => none
  | q :: rest =>
    match nodeAt root q with
    | some n =>
      match firstCollegeIn (fullText n) with
      | some nm => some nm
      | none => firstAncestorName root rest
    | none => firstAncestorName root rest

/-- The keyword heuristics of Strategy C when no ancestor matched. -/
def heuristicCollege (text : List Char) : List Char :=
  if pyIn ("Edinburgh College of Art".data) text || pyIn ("Divinity".data) text then
    collegeNames.getD 0 []
  else if pyIn ("Engineering".data) text || pyIn ("Informatics".data) text then
    collegeNames.getD 1 []
  else if pyIn ("Medicine".data) text || pyIn ("Veterinary".data) text then
    collegeNames.getD 2 []
  else collegeNames.getD 0 []

/-- College attribution of Strategy C for a link at path `p`. -/
def collegeFor (root : Node) (p : List Nat) (text : List Char) : List Char :=
  match firstAncestorName root (ancestorPaths p) with
  | some nm => nm
  | none => heuristicCollege text

/-- Worker for Strategy C.  A link without an `href` raises
`AttributeError` at `href.startswith('http')` — `None` has no `startswith`
— and nothing in `parse_colleges_and_schools` catches it. -/
def stratCAux (base : List Char) (root : Node) :
    List (List Nat × Node) → Colleges → Except PyExc Colleges
  | [], cols => Except.ok cols
  | (p, n) :: rest, cols =>
    let text := getTextStrip n
    match hrefOf n with
    | none => Except.error PyExc.attributeError
    | some h =>
      let nm := collegeFor root p text
      let nmSched := splitSchedule text
      let full := if !(("http".data).isPrefixOf h) then base ++ "/dpt/".data ++ h else h
      stratCAux base root rest
        (colAppend nm
          { name := nmSched.1, url := full, college := nm,
            schedule := nmSched.2, code := schoolCodeOf h } cols)

/-- `DRPSScraper.parse_colleges_and_schools`: Strategy A, then Strategy B if
no school was found, then the hardcoded Strategy C if still none.  `base`
is the value of `self.BASE_URL_CURRENT` at call time. -/
def parseCAS (base : List Char) (root : Node) : Except PyExc Colleges :=
  let c1 := stratA base root initColleges
  let c2 := if allEmpty c1 then stratB base root c1 else c1
  if allEmpty c2 then stratCAux base root (scheduleLinks root) c2
  else Except.ok c2

/-! ### Persistence (`save_to_json`) and the orchestrator (`scrape_all`) -/

/-- `DRPSScraper.save_to_json` (with the evident indentation of the
mis-indented line 756 restored): serialize `data` to `fn`; on `IOError`,
log and **re-raise**.  `ioFails fn` tells whether writing `fn` raises. -/
def saveToJson {α : Type} (ioFails : List Char → Bool) (data : α)
    (fn : List Char) : Except PyExc Unit :=
  if ioFails fn then Except.error (PyExc.ioError fn) else Except.ok ()

/-- `colleges_dir / f"{college_name.replace(' ', '_')}.json"`. -/
def collegeFilename (name : List Char) : List Char :=
  "scraped_data/colleges/".data ++ replaceAll name (" ".data) ("_".data) ++ ".json".data

/-- `schools_dir / f"{school['code']}.json"`. -/
def schoolFilename (code : List Char) : List Char :=
  "scraped_data/schools/".data ++ code ++ ".json".data

/-- `courses_dir / f"courses_{school_name_for_filename}.json"`. -/
def coursesFilename (schoolName : List Char) : List Char :=
  "scraped_data/courses/courses_".data ++
    replaceAll (replaceAll (replaceAll (replaceAll (replaceAll schoolName
      (" ".data) ("_".data)) (",".data) []) ("(".data) []) (")".data) [])
      ("/".data) ("_".data) ++
    ".json".data

/-- The per-school subject loop of `scrape_all` (step 3): parse the courses
of each subject in turn, extending `all_courses`; `parse_courses` never
raises, so neither does the loop. -/
def subjectLoop (net : List Char → Option Node) (wf : List Char → Bool) :
    List SubjectInfo → ScraperState → List Dict → List Dict × ScraperState
  | [], st, acc => (acc, st)
  | subj :: rest, st, acc =>
    let r := parseCourses net wf st subj.url subj
    subjectLoop net wf rest r.2 (acc ++ r.1)

/-- The school loop of `scrape_all`: per school, parse subjects, save the
school file, run the subject loop, save the per-school courses file.  A
failing save propagates.  Returns the accumulated `all_schools`. -/
def schoolLoop (net : List Char → Option Node) (wf : List Char → Bool)
    (ioFails : List Char → Bool) :
    List SchoolInfo → ScraperState → List SchoolInfo →
    Except PyExc (List SchoolInfo × ScraperState)
  | [], st, accS => Except.ok (accS, st)
  | sch :: rest, st, accS =>
    let subjects := parseSchoolSubjects net wf st sch.url sch
    match saveToJson ioFails (sch, subjects.1) (schoolFilename sch.code) with
    | Except.error e => Except.error e
    | Except.ok _ =>
      let courses := subjectLoop net wf subjects.1 subjects.2 []
      match saveToJson ioFails courses.1 (coursesFilename sch.name) with
      | Except.error e => Except.error e
      | Except.ok _ => schoolLoop net wf ioFails rest courses.2 (accS ++ [sch])

/-- The college loop of `scrape_all`: per college, save the college file,
then run the school loop.  Returns `all_colleges` (name and school count)
and `all_schools`. -/
def collegeLoop (net : List Char → Option Node) (wf : List Char → Bool)
    (ioFails : List Char → Bool) :
    Colleges → ScraperState → List (List Char × Nat) → List SchoolInfo →
    Except PyExc (List (List Char × Nat) × List SchoolInfo × ScraperState)
  | [], st, accC, accS => Except.ok (accC, accS, st)
  | (name, schools) :: rest, st, accC, accS =>
    match saveToJson ioFails (name, schools) (collegeFilename name) with
    | Except.error e => Except.error e
    | Except.ok _ =>
      match schoolLoop net wf ioFails schools st [] with
      | Except.error e => Except.error e
      | Except.ok (schs, st') =>
        collegeLoop net wf ioFails rest st' (accC ++ [(name, schools.length)]) (accS ++ schs)

/-- `DRPSScraper.scrape_all`: fetch and parse the index (retrying the
previous year's index on any exception), walk colleges, schools and
subjects, save the per-level files and summaries, and return the counts.
The outer `except Exception` logs and re-raises, so every uncaught inner
exception — a save failure included — aborts the crawl. -/
def scrapeAll (net : List Char → Option Node) (wf : List Char → Bool)
    (ioFails : List Char → Bool) (st : ScraperState) :
    Except PyExc (Nat × Nat × ScraperState) :=
  let idx : Except PyExc (Colleges × ScraperState) :=
    match (fetchPage net wf st SCHOOLS_INDEX_URL_CURRENT).1 with
    | Except.ok (soup, st1) =>
      match parseCAS st1.baseCurrent soup with
      | Except.ok cols => Except.ok (cols, st1)
      | Except.error _ =>
        match (fetchPage net wf st1 SCHOOLS_INDEX_URL_PREVIOUS).1 with
        | Except.ok (soup2, st2) => (parseCAS st2.baseCurrent soup2).map (fun c => (c, st2))
        | Except.error e => Except.error e
    | Except.error _ =>
      match (fetchPage net wf st SCHOOLS_INDEX_URL_PREVIOUS).1 with
      | Except.ok (soup2, st2) => (parseCAS st2.baseCurrent soup2).map (fun c => (c, st2))
      | Except.error e => Except.error e
  match idx with
  | Except.error e => Except.error e
  | Except.ok (colleges, st1) =>
    match collegeLoop net wf ioFails colleges st1 [] [] with
    | Except.error e => Except.error e
    | Except.ok (allColleges, allSchools, st2) =>
      match saveToJson ioFails allColleges ("scraped_data/all_colleges.json".data) with
      | Except.error e => Except.error e
      | Except.ok _ =>
        match saveToJson ioFails allSchools ("scraped_data/all_schools.json".data) with
        | Except.error e => Except.error e
        | Except.ok _ => Except.ok (allColleges.length, allSchools.length, st2)

/-! ### Concrete fixtures used by witnesses and counterexamples -/

/-- A checker for the course-code invariant on a produced record: its
`code` entry exists and fully matches `[A-Z]{2,}[0-9]{4,}`. -/
def courseCodeOk (d : Dict) : Bool :=
  match dlookup ("code".data) d with
  | some c => coreFull c
  | none => false

/-- A trivial parsed document. -/
def docEmpty : Node := Node.elem ("[document]".data) [] none []

/-- A file-write oracle on which no write ever fails. -/
def wfNever : List Char → Bool := fun _ => false

/-- A file-write oracle on which every write fails. -/
def wfAlways : List Char → Bool := fun _ => true

/-- A URL used by the fetcher fixtures. -/
def urlX : List Char := "http://example.org/x.htm".data

/-- A network oracle that succeeds exactly on `urlX`. -/
def netX : List Char → Option Node :=
  fun u => if u = urlX then some docEmpty else none

/-- A network oracle that succeeds exactly on URLs of the previous
edition's base path. -/
def netPrevOnly : List Char → Option Node :=
  fun u => if BASE_URL_PREVIOUS.isPrefixOf u then some docEmpty else none

/-- A network oracle on which every request fails. -/
def netNever : List Char → Option Node := fun _ => none

/-- Element-node builders for the concrete documents below. -/
def thNode (s : List Char) : Node := Node.elem ("th".data) [] none [Node.text s]

/-- A `td` cell holding one string. -/
def tdNode (s : List Char) : Node := Node.elem ("td".data) [] none [Node.text s]

/-- A `tr` row with the given cells. -/
def trNode (cs : List Node) : Node := Node.elem ("tr".data) [] none cs

/-- A `table` with the given rows. -/
def tableNode (rows : List Node) : Node := Node.elem ("table".data) [] none rows

/-- An `a` link with an `href` and a text child. -/
def aNode (href s : List Char) : Node := Node.elem ("a".data) [] (some href) [Node.text s]

/-- A document root with the given children. -/
def docOf (ns : List Node) : Node := Node.elem ("[document]".data) [] none ns

/-- A minimal subject page with one two-column course table and one data
row (no course link, so no detail fetch happens). -/
def courseDoc (code nm : List Char) : Node :=
  docOf [tableNode [trNode [thNode ("Code".data), thNode ("Name".data)],
                    trNode [tdNode code, tdNode nm]]]

/-- A generic subject record for totality witnesses. -/
def subjFix : SubjectInfo :=
  { name := "Subject".data, url := urlX, school_name := "School".data,
    school_code := "sc".data, college := collegeNames.getD 0 [] }

/-- A generic school record for totality witnesses. -/
def schFix : SchoolInfo :=
  { name := "School".data, url := urlX, college := collegeNames.getD 0 [],
    schedule := "Schedule A".data, code := "sc".data }

/-- Three subjects for the partial-failure fixture. -/
def subj1 : SubjectInfo :=
  { name := "Subject One".data, url := "http://h/x/s1.htm".data,
    school_name := "Sch".data, school_code := "sc".data,
    college := collegeNames.getD 1 [] }

/-- Second subject (its page will fail to fetch). -/
def subj2 : SubjectInfo :=
  { name := "Subject Two".data, url := "http://h/x/s2.htm".data,
    school_name := "Sch".data, school_code := "sc".data,
    college := collegeNames.getD 1 [] }

/-- Third subject. -/
def subj3 : SubjectInfo :=
  { name := "Subject Three".data, url := "http://h/x/s3.htm".data,
    school_name := "Sch".data, school_code := "sc".data,
    college := collegeNames.getD 1 [] }

/-- A network for the partial-failure fixture: subjects one and three have
course pages, subject two's request fails. -/
def net4 : List Char → Option Node :=
  fun u =>
    if u = subj1.url then some (courseDoc ("AB1234".data) ("Course One".data))
    else if u = subj3.url then some (courseDoc ("CD5678".data) ("Course Three".data))
    else none

/-- A network serving only the current schools index (as an empty page). -/
def netIdxOnly : List Char → Option Node :=
  fun u => if u = SCHOOLS_INDEX_URL_CURRENT then some docEmpty else none

/-- The subject-page URL of the end-to-end scenario of C8. -/
def psySubjUrl : List Char := "http://www.drps.ed.ac.uk/24-25/dpt/cx_sb_psyc.htm".data

/-- The C8 document: one table, header row Code / Course Name / Period, one
data row with a linked course name. -/
def psyDoc : Node :=
  docOf [tableNode
    [trNode [thNode ("Code".data), thNode ("Course Name".data), thNode ("Period".data)],
     trNode [tdNode ("PSYC10001".data),
             Node.elem ("td".data) [] none [aNode ("c1.htm".data) ("Intro to Psych".data)],
             tdNode ("Semester 1".data)]]]

/-- The C8 network: only the subject page exists (the course-detail fetch
fails, so the record keeps its basic fields). -/
def netPsy : List Char → Option Node :=
  fun u => if u = psySubjUrl then some psyDoc else none

/-- The C8 subject record. -/
def psySubj : SubjectInfo :=
  { name := "Psychology".data, url := psySubjUrl, school_name := "School of PPLS".data,
    school_code := "ppls".data, college := collegeNames.getD 0 [] }

/-- One colleges mapping extends another when it has the same keys in the
same order and each school list only grew at the end (strategies only ever
append). -/
def colsExtends (c c' : Colleges) : Prop :=
  List.Forall₂ (fun e e' => e'.1 = e.1 ∧ ∃ t, e'.2 = e.2 ++ t) c c'

/-- The subject-page URL of the C3 counterexample. -/
def sbUrl : List Char := "http://h/x/sb.htm".data

/-- A subject page with one valid course row whose name links `d1.htm`. -/
def docB3 : Node :=
  docOf [tableNode
    [trNode [thNode ("Course Code".data), thNode ("Name".data)],
     trNode [tdNode ("AB1234".data),
             Node.elem ("td".data) [] none [aNode ("d1.htm".data) ("Bad Course".data)]]]]

/-- A course-detail page whose only table has no caption and a row with
header cell "Code": the generic detail extractor stores it under the key
`code`, which the merge then writes over the validated course code. -/
def detailDoc3 : Node :=
  docOf [tableNode [trNode [thNode ("Code".data), tdNode ("##notacode".data)]]]

/-- The C3 counterexample network: the subject page and the detail page. -/
def netB3 : List Char → Option Node :=
  fun u =>
    if u = sbUrl then some docB3
    else if u = ("http://h/x/d1.htm".data) then some detailDoc3
    else none

/-- The C3 counterexample subject record. -/
def subjB3 : SubjectInfo :=
  { name := "Subject B".data, url := sbUrl, school_name := "Sch".data,
    school_code := "sc".data, college := collegeNames.getD 0 [] }

/-- The subject-page URL of the C3 witness. -/
def wUrl : List Char := "http://h/x/sw.htm".data

/-- A subject page with one valid unlinked course row; its headers produce
no `code` key when read back as a (hypothetical) detail page. -/
def docW3 : Node :=
  docOf [tableNode
    [trNode [thNode ("Course Code".data), thNode ("Name".data)],
     trNode [tdNode ("AB1234".data), tdNode ("Nice Course".data)]]]

/-- The C3 witness network: only the subject page exists. -/
def netW3 : List Char → Option Node :=
  fun u => if u = wUrl then some docW3 else none

/-- The C3 witness subject record. -/
def subjW3 : SubjectInfo :=
  { name := "Subject W".data, url := wUrl, school_name := "Sch".data,
    school_code := "sc".data, college := collegeNames.getD 0 [] }

/-- A document on which Strategy A finds a "College of" header but cannot
attribute it (the college name is split over two text nodes), while
Strategy B's backwards text window spans both nodes and attributes the
subsequent list. -/
def docB5 : Node :=
  docOf [Node.text ("College of Scie".data),
         Node.text ("nce and Engineering".data),
         Node.elem ("ul".data) [] none
           [Node.elem ("li".data) [] none
             [aNode ("cx_s_su.htm".data) ("School of X (Schedule U)".data)]]]

/-! ## Lemmas on the string primitives -/

theorem isPrefixOf_append_self (a t : List Char) : a.isPrefixOf (a ++ t) = true := by
  induction a with
  | nil => cases t <;> rfl
  | cons x xs ih => simp [List.isPrefixOf, ih]

theorem isPrefixOf_eq_of_length (a b l : List Char) (ha : a.isPrefixOf l = true)
    (hb : b.isPrefixOf l = true) (hlen : a.length = b.length) : a = b := by
  induction l generalizing a b with
  | nil =>
    cases a with
    | nil =>
      cases b with
      | nil => rfl
      | cons y ys => simp at hlen
    | cons x xs => simp [List.isPrefixOf] at ha
  | cons c cs ih =>
    cases a with
    | nil =>
      cases b with
      | nil => rfl
      | cons y ys => simp at hlen
    | cons x xs =>
      cases b with
      | nil => simp at hlen
      | cons y ys =>
        simp only [List.isPrefixOf, Bool.and_eq_true, beq_iff_eq] at ha hb
        simp only [List.length_cons, Nat.succ.injEq] at hlen
        rw [ha.1, hb.1, ih xs ys ha.2 hb.2 hlen]

theorem pyIn_of_isPrefixOf (sub s : List Char) (h : sub.isPrefixOf s = true) :
    pyIn sub s = true := by
  cases s with
  | nil =>
    cases sub with
    | nil => rfl
    | cons x xs => simp [List.isPrefixOf] at h
  | cons c cs => simp [pyIn, h]

theorem replAux_fuel (pat rep : List Char) :
    ∀ f1 f2 s, s.length ≤ f1 → s.length ≤ f2 →
      replAux pat rep f1 s = replAux pat rep f2 s := by
  intro f1
  induction f1 with
  | zero =>
    intro f2 s h1 _
    have hs : s = [] := List.length_eq_zero.mp (Nat.le_zero.mp h1)
    subst hs
    cases f2 <;> rfl
  | succ f ih =>
    intro f2 s h1 h2
    cases s with
    | nil => cases f2 <;> rfl
    | cons c cs =>
      cases f2 with
      | zero => simp at h2
      | succ g =>
        simp only [replAux]
        by_cases hc : (!pat.isEmpty && pat.isPrefixOf (c :: cs)) = true
        · rw [if_pos hc, if_pos hc]
          have hpat : 1 ≤ pat.length := by
            cases pat with
            | nil => simp at hc
            | cons _ _ => simp
          have hd : ((c :: cs).drop pat.length).length ≤ f := by
            simp only [List.length_drop, List.length_cons]
            simp only [List.length_cons] at h1
            omega
          have hd2 : ((c :: cs).drop pat.length).length ≤ g := by
            simp only [List.length_drop, List.length_cons]
            simp only [List.length_cons] at h2
            omega
          rw [ih g ((c :: cs).drop pat.length) hd hd2]
        · rw [if_neg hc, if_neg hc]
          have hcs : cs.length ≤ f := by
            simp only [List.length_cons] at h1; omega
          have hcs2 : cs.length ≤ g := by
            simp only [List.length_cons] at h2; omega
          rw [ih g cs hcs hcs2]

theorem replaceAll_append (pat p rep : List Char) (hp : pat ≠ []) :
    replaceAll (pat ++ p) pat rep = rep ++ replaceAll p pat rep := by
  obtain ⟨a, as, rfl⟩ : ∃ a as, pat = a :: as := by
    cases pat with
    | nil => exact absurd rfl hp
    | cons a as => exact ⟨a, as, rfl⟩
  show replAux (a :: as) rep ((a :: (as ++ p)).length) (a :: (as ++ p)) = _
  have hpre : (a :: as).isPrefixOf (a :: (as ++ p)) = true := isPrefixOf_append_self _ _
  simp only [List.length_cons, replAux, Bool.and_eq_true, hpre]
  rw [if_pos (by simp [hpre])]
  have hdrop : (a :: (as ++ p)).drop (a :: as).length = p := by
    show ((a :: as) ++ p).drop (a :: as).length = p
    exact List.drop_left _ _
  simp only [List.length_cons] at hdrop
  rw [hdrop]
  unfold replaceAll
  rw [replAux_fuel (a :: as) rep ((as ++ p).length) p.length p
    (by simp) (le_refl _)]

theorem cur_not_prefixOf_prev (q : List Char) :
    BASE_URL_CURRENT.isPrefixOf (BASE_URL_PREVIOUS ++ q) = false := by
  cases hb : BASE_URL_CURRENT.isPrefixOf (BASE_URL_PREVIOUS ++ q) with
  | false => rfl
  | true =>
    have heq := isPrefixOf_eq_of_length _ _ _ hb (isPrefixOf_append_self _ _) (by decide)
    exact absurd heq (by decide)

/-! ## C1: edition fallback behaviour of the fetcher -/

/-- C1: with a network on which every current-edition URL fails and every
previous-edition URL succeeds, one `fetch_page` call on a current-edition
URL succeeds (after exactly the two attempts: the URL itself, then its
previous-edition rewrite), permanently switches the session base to the
previous edition, and every subsequent fetch of a URL built from the new
base succeeds in a single attempt that never touches the current edition. -/
theorem edition_fallback_permanent
    (net : List Char → Option Node) (wf : List Char → Bool)
    (st0 : ScraperState) (p : List Char)
    (hbase : st0.baseCurrent = BASE_URL_CURRENT)
    (htry : st0.tryPreviousYear = true)
    (hwf : ∀ f, wf f = false)
    (hfail : ∀ u, BASE_URL_CURRENT.isPrefixOf u = true → net u = none)
    (hok : ∀ u, BASE_URL_PREVIOUS.isPrefixOf u = true → (net u).isSome = true) :
    ∃ doc,
      fetchPage net wf st0 (BASE_URL_CURRENT ++ p) =
        (Except.ok (doc, { st0 with baseCurrent := BASE_URL_PREVIOUS }),
         [BASE_URL_CURRENT ++ p,
          BASE_URL_PREVIOUS ++ replaceAll p BASE_URL_CURRENT BASE_URL_PREVIOUS]) ∧
      ({ st0 with baseCurrent := BASE_URL_PREVIOUS } : ScraperState).baseCurrent =
        BASE_URL_PREVIOUS ∧
      ∀ q, ∃ doc2,
        fetchPage net wf { st0 with baseCurrent := BASE_URL_PREVIOUS }
            (({ st0 with baseCurrent := BASE_URL_PREVIOUS } : ScraperState).baseCurrent ++ q) =
          (Except.ok (doc2, { st0 with baseCurrent := BASE_URL_PREVIOUS }),
           [BASE_URL_PREVIOUS ++ q]) ∧
        BASE_URL_CURRENT.isPrefixOf (BASE_URL_PREVIOUS ++ q) = false := by
  have h1 : net (BASE_URL_CURRENT ++ p) = none :=
    hfail _ (isPrefixOf_append_self _ _)
  have hrw : replaceAll (BASE_URL_CURRENT ++ p) BASE_URL_CURRENT BASE_URL_PREVIOUS =
      BASE_URL_PREVIOUS ++ replaceAll p BASE_URL_CURRENT BASE_URL_PREVIOUS :=
    replaceAll_append _ _ _ (by decide)
  have h2 : (net (replaceAll (BASE_URL_CURRENT ++ p) BASE_URL_CURRENT
      BASE_URL_PREVIOUS)).isSome = true := by
    rw [hrw]; exact hok _ (isPrefixOf_append_self _ _)
  obtain ⟨doc, hdoc⟩ := Option.isSome_iff_exists.mp h2
  have hin : pyIn BASE_URL_CURRENT (BASE_URL_CURRENT ++ p) = true :=
    pyIn_of_isPrefixOf _ _ (isPrefixOf_append_self _ _)
  have hdoc2 : net (BASE_URL_PREVIOUS ++ replaceAll p BASE_URL_CURRENT
      BASE_URL_PREVIOUS) = some doc := by rw [← hrw]; exact hdoc
  refine ⟨doc, ?_, rfl, ?_⟩
  · simp only [fetchPage, h1, hbase, htry, hin, Bool.true_and, if_pos, hwf,
      Bool.and_false, Bool.false_eq_true, if_false, hrw, hdoc2]
  · intro q
    obtain ⟨doc2, hdoc2⟩ :=
      Option.isSome_iff_exists.mp (hok (BASE_URL_PREVIOUS ++ q) (isPrefixOf_append_self _ _))
    refine ⟨doc2, ?_, cur_not_prefixOf_prev q⟩
    simp only [fetchPage, hdoc2, hwf, Bool.and_false, Bool.false_eq_true, if_false]

/-- Witness for C1 at a concrete network: the fetcher concretely falls back
and sticks to the previous edition. -/
theorem edition_fallback_permanent_witness :
    ∃ doc,
      fetchPage netPrevOnly wfNever initState (BASE_URL_CURRENT ++ "/dpt/cx_schindex.htm".data) =
        (Except.ok (doc, { initState with baseCurrent := BASE_URL_PREVIOUS }),
         [BASE_URL_CURRENT ++ "/dpt/cx_schindex.htm".data,
          BASE_URL_PREVIOUS ++ replaceAll ("/dpt/cx_schindex.htm".data)
            BASE_URL_CURRENT BASE_URL_PREVIOUS]) ∧
      ({ initState with baseCurrent := BASE_URL_PREVIOUS } : ScraperState).baseCurrent =
        BASE_URL_PREVIOUS ∧
      ∀ q, ∃ doc2,
        fetchPage netPrevOnly wfNever { initState with baseCurrent := BASE_URL_PREVIOUS }
            (({ initState with baseCurrent := BASE_URL_PREVIOUS } : ScraperState).baseCurrent ++ q) =
          (Except.ok (doc2, { initState with baseCurrent := BASE_URL_PREVIOUS }),
           [BASE_URL_PREVIOUS ++ q]) ∧
        BASE_URL_CURRENT.isPrefixOf (BASE_URL_PREVIOUS ++ q) = false :=
  edition_fallback_permanent netPrevOnly wfNever initState ("/dpt/cx_schindex.htm".data)
    rfl rfl (fun _ => rfl)
    (fun u hu => by
      have hf : BASE_URL_PREVIOUS.isPrefixOf u = false := by
        cases hb : BASE_URL_PREVIOUS.isPrefixOf u with
        | false => rfl
        | true =>
          have heq := isPrefixOf_eq_of_length _ _ _ hb hu (by decide)
          exact absurd heq (by decide)
      simp [netPrevOnly, hf])
    (fun u hu => by simp [netPrevOnly, hu])

/-! ## C6: when the fetcher raises -/

/-- C6: `fetch_page` surfaces a `FetchError` (the re-raised
`requests.RequestException` for the original URL) exactly when the request
for the URL fails and either the previous-edition fallback does not apply
or the single retry against the previous-edition rewrite also fails; the
attempted requests are exactly the URL itself, plus (only in the fallback
case) its one previous-edition rewrite — no further fallback exists. -/
theorem fetch_error_iff_and_single_retry
    (net : List Char → Option Node) (wf : List Char → Bool)
    (st : ScraperState) (url : List Char) :
    ((fetchPage net wf st url).1 = Except.error (PyExc.requestException url) ↔
      (net url = none ∧
        ((st.tryPreviousYear && pyIn st.baseCurrent url) = false ∨
          net (replaceAll url st.baseCurrent BASE_URL_PREVIOUS) = none))) ∧
    (fetchPage net wf st url).2 =
      (if ((net url).isNone && (st.tryPreviousYear && pyIn st.baseCurrent url)) = true then
        [url, replaceAll url st.baseCurrent BASE_URL_PREVIOUS]
      else [url]) := by
  cases hnet : net url with
  | some doc =>
    by_cases hdw : (st.debug && wf (debugFilename url)) = true
    · simp [fetchPage, hnet, hdw]
    · simp [fetchPage, hnet, hdw]
  | none =>
    by_cases hfb : (st.tryPreviousYear && pyIn st.baseCurrent url) = true
    · cases hnet2 : net (replaceAll url st.baseCurrent BASE_URL_PREVIOUS) with
      | some doc2 =>
        by_cases hdw : (st.debug && wf (debugFilename
            (replaceAll url st.baseCurrent BASE_URL_PREVIOUS))) = true
        · simp [fetchPage, hnet, hfb, hnet2, hdw]
        · simp [fetchPage, hnet, hfb, hnet2, hdw]
      | none => simp [fetchPage, hnet, hfb, hnet2]
    · simp only [Bool.not_eq_true] at hfb
      simp [fetchPage, hnet, hfb]

/-! ## C7: a debug-write failure is not contained -/

/-- Counterexample to C7: a URL whose network fetch succeeds but whose
debug-file write raises.  `fetch_page` does not return the parsed document;
the `IOError` escapes (only `requests.RequestException` is caught), so the
write failure fails the fetch. -/
theorem debug_write_failure_counterexample :
    (netX urlX).isSome = true ∧
    (fetchPage netX wfAlways initState urlX).1 =
      Except.error (PyExc.ioError (debugFilename urlX)) :=
  ⟨rfl, rfl⟩

/-- C7 (amended): in debug mode a failing debug-file write makes
`fetch_page` raise the write's `IOError` instead of returning the fetched
document; only when the write does not fail (or debug is off) does
`fetch_page` return the parsed document. -/
theorem debug_write_failure_propagates
    (net : List Char → Option Node) (wf : List Char → Bool)
    (st : ScraperState) (url : List Char) (doc : Node)
    (hnet : net url = some doc) :
    ((st.debug && wf (debugFilename url)) = true →
      (fetchPage net wf st url).1 = Except.error (PyExc.ioError (debugFilename url))) ∧
    ((st.debug && wf (debugFilename url)) = false →
      (fetchPage net wf st url).1 = Except.ok (doc, st)) := by
  constructor
  · intro h; simp [fetchPage, hnet, h]
  · intro h; simp [fetchPage, hnet, h]

/-- Witness for the amended C7 at a concrete input. -/
theorem debug_write_failure_propagates_witness :
    (fetchPage netX wfNever initState urlX).1 = Except.ok (docEmpty, initState) :=
  (debug_write_failure_propagates netX wfNever initState urlX docEmpty rfl).2 rfl

/-! ## Totality of the parsers at their boundary -/

theorem parseCourses_fetch_error (net : List Char → Option Node) (wf : List Char → Bool)
    (st : ScraperState) (url : List Char) (subj : SubjectInfo) (e : PyExc)
    (h : (fetchPage net wf st url).1 = Except.error e) :
    parseCourses net wf st url subj = ([], st) := by
  simp [parseCourses, h]

theorem parseSchoolSubjects_fetch_error (net : List Char → Option Node) (wf : List Char → Bool)
    (st : ScraperState) (url : List Char) (sch : SchoolInfo) (e : PyExc)
    (h : (fetchPage net wf st url).1 = Except.error e) :
    parseSchoolSubjects net wf st url sch = ([], st) := by
  simp [parseSchoolSubjects, h]

theorem fetchPage_ok_source (net : List Char → Option Node) (wf : List Char → Bool)
    (st : ScraperState) (url : List Char) (doc : Node) (st' : ScraperState)
    (h : (fetchPage net wf st url).1 = Except.ok (doc, st')) :
    net url = some doc ∨
      net (replaceAll url st.baseCurrent BASE_URL_PREVIOUS) = some doc := by
  unfold fetchPage at h
  cases hnet : net url with
  | some d =>
    by_cases hdw : (st.debug && wf (debugFilename url)) = true
    · simp [hnet, hdw] at h
    · simp [hnet, hdw] at h
      obtain ⟨h1, _⟩ := h
      exact Or.inl (by rw [h1])
  | none =>
    by_cases hfb : (st.tryPreviousYear && pyIn st.baseCurrent url) = true
    · cases hnet2 : net (replaceAll url st.baseCurrent BASE_URL_PREVIOUS) with
      | some d2 =>
        by_cases hdw : (st.debug && wf (debugFilename
            (replaceAll url st.baseCurrent BASE_URL_PREVIOUS))) = true
        · simp [hnet, hfb, hnet2, hdw] at h
        · simp [hnet, hfb, hnet2, hdw] at h
          obtain ⟨h1, _⟩ := h
          exact Or.inr (by rw [h1])
      | none => simp [hnet, hfb, hnet2] at h
    · simp [hnet, hfb] at h

/-- C10: the subject and course extractors are total at their boundary —
in particular a failing document fetch inside them is caught and turned
into the empty result list (with the session state untouched). -/
theorem parsers_return_empty_on_fetch_failure
    (net : List Char → Option Node) (wf : List Char → Bool)
    (st : ScraperState) (url : List Char) (subj : SubjectInfo) (sch : SchoolInfo)
    (e : PyExc) (h : (fetchPage net wf st url).1 = Except.error e) :
    parseCourses net wf st url subj = ([], st) ∧
    parseSchoolSubjects net wf st url sch = ([], st) :=
  ⟨parseCourses_fetch_error net wf st url subj e h,
   parseSchoolSubjects_fetch_error net wf st url sch e h⟩

/-- Witness for C10 at a concrete failing network. -/
theorem parsers_return_empty_on_fetch_failure_witness :
    parseCourses netNever wfNever initState urlX subjFix = ([], initState) ∧
    parseSchoolSubjects netNever wfNever initState urlX schFix = ([], initState) :=
  parsers_return_empty_on_fetch_failure netNever wfNever initState urlX subjFix schFix
    (PyExc.requestException urlX) rfl

/-! ## C4: partial failure containment in the per-school course loop -/

/-- C4: in the per-school subject loop, when course extraction for the
second of three subjects fails (its page fetch raises, which
`parse_courses` catches, returning the empty list), the aggregated course
list is exactly the courses of subject one followed by the courses of
subject three, and the loop completes normally. -/
theorem partial_failure_containment
    (net : List Char → Option Node) (wf : List Char → Bool) (st : ScraperState)
    (s1 s2 s3 : SubjectInfo) (e : PyExc)
    (h2 : (fetchPage net wf (parseCourses net wf st s1.url s1).2 s2.url).1 =
      Except.error e) :
    subjectLoop net wf [s1, s2, s3] st [] =
      ((parseCourses net wf st s1.url s1).1 ++
        (parseCourses net wf (parseCourses net wf st s1.url s1).2 s3.url s3).1,
       (parseCourses net wf (parseCourses net wf st s1.url s1).2 s3.url s3).2) := by
  have hmid := parseCourses_fetch_error net wf
    (parseCourses net wf st s1.url s1).2 s2.url s2 e h2
  simp [subjectLoop, hmid]

/-- Witness for C4: a concrete three-subject run where the middle fetch
fails; the aggregate is the first and third subjects' courses. -/
theorem partial_failure_containment_witness :
    subjectLoop net4 wfNever [subj1, subj2, subj3] initState [] =
      ((parseCourses net4 wfNever initState subj1.url subj1).1 ++
        (parseCourses net4 wfNever (parseCourses net4 wfNever initState subj1.url subj1).2
          subj3.url subj3).1,
       (parseCourses net4 wfNever (parseCourses net4 wfNever initState subj1.url subj1).2
          subj3.url subj3).2) :=
  partial_failure_containment net4 wfNever initState subj1 subj2 subj3
    (PyExc.requestException subj2.url) rfl

/-! ## C2: a persistence failure is re-raised and aborts the crawl -/

/-- Counterexample to C2: a crawl in which all fetching and parsing
succeeds but every file write fails.  `save_to_json` re-raises the
`IOError` after logging it, nothing up the stack catches it (the outer
handler of `scrape_all` re-raises), so the crawl aborts on the very first
college save. -/
theorem save_failure_aborts_crawl_counterexample :
    scrapeAll netIdxOnly wfNever wfAlways initState =
      Except.error (PyExc.ioError (collegeFilename (collegeNames.getD 0 []))) := rfl

/-- C2 (amended): a persistence failure in `save_to_json` is logged and
re-raised — it propagates to the caller, and a failing college-file save
aborts the whole college loop of the crawl. -/
theorem save_failure_propagates
    (ioFails : List Char → Bool) {α : Type} (payload : α) (fn : List Char)
    (hio : ioFails fn = true)
    (net : List Char → Option Node) (wf : List Char → Bool) (st : ScraperState)
    (name : List Char) (schools : List SchoolInfo) (rest : Colleges)
    (accC : List (List Char × Nat)) (accS : List SchoolInfo)
    (hcol : ioFails (collegeFilename name) = true) :
    saveToJson ioFails payload fn = Except.error (PyExc.ioError fn) ∧
    collegeLoop net wf ioFails ((name, schools) :: rest) st accC accS =
      Except.error (PyExc.ioError (collegeFilename name)) := by
  constructor
  · simp [saveToJson, hio]
  · simp [collegeLoop, saveToJson, hcol]

/-- Witness for the amended C2 at concrete inputs. -/
theorem save_failure_propagates_witness :
    saveToJson wfAlways () urlX = Except.error (PyExc.ioError urlX) ∧
    collegeLoop netNever wfNever wfAlways [(collegeNames.getD 0 [], [])] initState [] [] =
      Except.error (PyExc.ioError (collegeFilename (collegeNames.getD 0 []))) :=
  save_failure_propagates wfAlways () urlX rfl netNever wfNever initState
    (collegeNames.getD 0 []) [] [] [] [] rfl

/-! ## C8: the end-to-end course-extraction scenario -/

/-- C8: on the minimal document with header row Code / Course Name /
Period and one data row whose name cell links `c1.htm`, course extraction
returns exactly one record with the expected code, name and period, and
with the link resolved against the subject page's base directory. -/
theorem end_to_end_course_extraction :
    (parseCourses netPsy wfNever initState psySubjUrl psySubj).1.length = 1 ∧
    dlookup ("code".data) ((parseCourses netPsy wfNever initState psySubjUrl psySubj).1.getD 0 []) =
      some ("PSYC10001".data) ∧
    dlookup ("name".data) ((parseCourses netPsy wfNever initState psySubjUrl psySubj).1.getD 0 []) =
      some ("Intro to Psych".data) ∧
    dlookup ("period".data) ((parseCourses netPsy wfNever initState psySubjUrl psySubj).1.getD 0 []) =
      some ("Semester 1".data) ∧
    dlookup ("url".data) ((parseCourses netPsy wfNever initState psySubjUrl psySubj).1.getD 0 []) =
      some ("http://www.drps.ed.ac.uk/24-25/dpt/c1.htm".data) :=
  ⟨rfl, rfl, rfl, rfl, rfl⟩

/-! ## Key preservation in index extraction (towards C9) -/

theorem keysOf_colAppend (k : List Char) (v : SchoolInfo) (c : Colleges) :
    keysOf (colAppend k v c) = keysOf c := by
  unfold keysOf colAppend
  rw [List.map_map]
  apply List.map_congr_left
  intro e _
  by_cases h : e.1 = k <;> simp [h]

theorem keysOf_foldl {β : Type} (f : Colleges → β → Colleges)
    (hf : ∀ c b, keysOf (f c b) = keysOf c) :
    ∀ (l : List β) (c : Colleges), keysOf (l.foldl f c) = keysOf c := by
  intro l
  induction l with
  | nil => intro c; rfl
  | cons b bs ih => intro c; rw [List.foldl_cons, ih, hf]

theorem keysOf_processSchoolList (base : List Char) (ul : Node) (nm : List Char)
    (cols : Colleges) : keysOf (processSchoolList base ul nm cols) = keysOf cols := by
  unfold processSchoolList
  refine keysOf_foldl _ ?_ _ _
  intro c item
  cases h : findFirst (isTag ("a".data)) item with
  | none => simp [h]
  | some link =>
    cases h2 : hrefOf link with
    | none => simp [h, h2]
    | some hr =>
      simp only [h, h2]
      split
      · rfl
      · exact keysOf_colAppend _ _ _

theorem keysOf_stratA (base : List Char) (root : Node) (cols : Colleges) :
    keysOf (stratA base root cols) = keysOf cols := by
  unfold stratA
  refine keysOf_foldl _ ?_ _ _
  intro c hd
  split
  · cases h : firstCollegeIn hd.2 with
    | none => simp [h]
    | some nm =>
      cases h2 : aWalk root hd.1.dropLast with
      | none => simp [h, h2]
      | some ul => simp [h, h2, keysOf_processSchoolList]
  · rfl

theorem keysOf_stratBAux (base : List Char) :
    ∀ (l : List (List Nat × Node)) (prevRev : List Node) (cols : Colleges),
      keysOf (stratBAux base prevRev l cols) = keysOf cols := by
  intro l
  induction l with
  | nil => intro prevRev cols; rfl
  | cons pn rest ih =>
    intro prevRev cols
    obtain ⟨p, n⟩ := pn
    simp only [stratBAux]
    rw [ih]
    split
    · cases h : firstCollegeIn (buildPrev prevRev []) with
      | none => simp [h]
      | some nm => simp [h, keysOf_processSchoolList]
    · rfl

theorem keysOf_stratB (base : List Char) (root : Node) (cols : Colleges) :
    keysOf (stratB base root cols) = keysOf cols :=
  keysOf_stratBAux base (subNodes root) [] cols

theorem keysOf_stratCAux (base : List Char) (root : Node) :
    ∀ (l : List (List Nat × Node)) (cols m : Colleges),
      stratCAux base root l cols = Except.ok m → keysOf m = keysOf cols := by
  intro l
  induction l with
  | nil =>
    intro cols m h
    simp only [stratCAux, Except.ok.injEq] at h
    rw [← h]
  | cons pn rest ih =>
    intro cols m h
    obtain ⟨p, n⟩ := pn
    simp only [stratCAux] at h
    cases hh : hrefOf n with
    | none => rw [hh] at h; simp at h
    | some hr =>
      rw [hh] at h
      rw [ih _ _ h, keysOf_colAppend]

theorem keysOf_initColleges : keysOf initColleges = collegeNames := rfl

/-- C9: whatever the input document, when index extraction returns a
mapping its keys are exactly the three fixed canonical college names, in
order — each college is present even with no schools attributed, and no
other key ever appears. -/
theorem index_keys_fixed (base : List Char) (root : Node) (m : Colleges)
    (h : parseCAS base root = Except.ok m) : keysOf m = collegeNames := by
  simp only [parseCAS] at h
  by_cases hA : allEmpty (stratA base root initColleges) = true
  · rw [if_pos hA] at h
    by_cases hB : allEmpty (stratB base root (stratA base root initColleges)) = true
    · rw [if_pos hB] at h
      rw [keysOf_stratCAux base root _ _ _ h, keysOf_stratB, keysOf_stratA,
        keysOf_initColleges]
    · rw [if_neg hB] at h
      simp only [Except.ok.injEq] at h
      rw [← h, keysOf_stratB, keysOf_stratA, keysOf_initColleges]
  · rw [if_neg hA] at h
    by_cases hB : allEmpty (stratA base root initColleges) = true
    · exact absurd hB hA
    · rw [if_neg hB] at h
      simp only [Except.ok.injEq] at h
      rw [← h, keysOf_stratA, keysOf_initColleges]

/-- Witness for C9 at a concrete document. -/
theorem index_keys_fixed_witness :
    ∃ m, parseCAS BASE_URL_CURRENT docEmpty = Except.ok m ∧ keysOf m = collegeNames :=
  ⟨initColleges, rfl, index_keys_fixed BASE_URL_CURRENT docEmpty initColleges rfl⟩

/-! ## Strategies only append (towards C5) -/

theorem colsExtends_refl (c : Colleges) : colsExtends c c := by
  induction c with
  | nil => exact List.Forall₂.nil
  | cons e es ih => exact List.Forall₂.cons ⟨rfl, [], by simp⟩ ih

theorem colsExtends_trans {a b c : Colleges} (h1 : colsExtends a b)
    (h2 : colsExtends b c) : colsExtends a c := by
  induction h1 generalizing c with
  | nil => cases h2; exact List.Forall₂.nil
  | cons hab _ ih =>
    cases h2 with
    | cons hbc h2' =>
      refine List.Forall₂.cons ⟨hbc.1.trans hab.1, ?_⟩ (ih h2')
      obtain ⟨t1, ht1⟩ := hab.2
      obtain ⟨t2, ht2⟩ := hbc.2
      exact ⟨t1 ++ t2, by rw [ht2, ht1, List.append_assoc]⟩

theorem colsExtends_colAppend (k : List Char) (v : SchoolInfo) (c : Colleges) :
    colsExtends c (colAppend k v c) := by
  induction c with
  | nil => exact List.Forall₂.nil
  | cons e es ih =>
    refine List.Forall₂.cons ?_ ih
    by_cases h : e.1 = k
    · exact ⟨by simp [colAppend, h], ⟨[v], by simp [colAppend, h]⟩⟩
    · exact ⟨by simp [colAppend, h], ⟨[], by simp [colAppend, h]⟩⟩

theorem colsExtends_foldl {β : Type} (f : Colleges → β → Colleges)
    (hf : ∀ c b, colsExtends c (f c b)) :
    ∀ (l : List β) (c : Colleges), colsExtends c (l.foldl f c) := by
  intro l
  induction l with
  | nil => intro c; exact colsExtends_refl c
  | cons b bs ih => intro c; exact colsExtends_trans (hf c b) (ih (f c b))

theorem processSchoolList_extends (base : List Char) (ul : Node) (nm : List Char)
    (cols : Colleges) : colsExtends cols (processSchoolList base ul nm cols) := by
  unfold processSchoolList
  refine colsExtends_foldl _ ?_ _ _
  intro c item
  cases h : findFirst (isTag ("a".data)) item with
  | none => simp only [h]; exact colsExtends_refl c
  | some link =>
    cases h2 : hrefOf link with
    | none => simp only [h, h2]; exact colsExtends_refl c
    | some hr =>
      simp only [h, h2]
      split
      · exact colsExtends_refl c
      · exact colsExtends_colAppend _ _ _

theorem stratA_extends (base : List Char) (root : Node) (cols : Colleges) :
    colsExtends cols (stratA base root cols) := by
  unfold stratA
  refine colsExtends_foldl _ ?_ _ _
  intro c hd
  split
  · cases h : firstCollegeIn hd.2 with
    | none => simp only [h]; exact colsExtends_refl c
    | some nm =>
      cases h2 : aWalk root hd.1.dropLast with
      | none => simp only [h, h2]; exact colsExtends_refl c
      | some ul => simp only [h, h2]; exact processSchoolList_extends _ _ _ _
  · exact colsExtends_refl c

theorem extends_init_allEmpty (c' : Colleges) (he : colsExtends initColleges c')
    (ha : allEmpty c' = true) : c' = initColleges := by
  unfold colsExtends initColleges collegeNames at he
  simp only [List.map_cons, List.map_nil] at he
  cases he with
  | @cons _ e1 _ rest1 h1 he1 =>
    cases he1 with
    | @cons _ e2 _ rest2 h2 he2 =>
      cases he2 with
      | @cons _ e3 _ rest3 h3 he3 =>
        cases he3
        unfold allEmpty at ha
        simp only [List.all_cons, List.all_nil, Bool.and_true, Bool.and_eq_true,
          List.isEmpty_iff] at ha
        have he1' : e1 = (("College of Arts, Humanities and Social Sciences".data), []) := by
          obtain ⟨hk, _, hv⟩ := h1
          refine Prod.ext hk ?_
          rw [ha.1]
        have he2' : e2 = (("College of Science and Engineering".data), []) := by
          obtain ⟨hk, _, hv⟩ := h2
          refine Prod.ext hk ?_
          rw [ha.2.1]
        have he3' : e3 = (("College of Medicine and Veterinary Medicine".data), []) := by
          obtain ⟨hk, _, hv⟩ := h3
          refine Prod.ext hk ?_
          rw [ha.2.2]
        rw [he1', he2', he3']
        rfl

/-- C5: on a document where Strategy A attributes no schools to any
college while Strategy B would, index extraction returns exactly Strategy
B's result applied to the fresh mapping — never a merge of the two
strategies' results (and Strategy C is never consulted). -/
theorem fallback_uses_strategy_b_exactly (base : List Char) (root : Node)
    (hA : allEmpty (stratA base root initColleges) = true)
    (hB : allEmpty (stratB base root initColleges) = false) :
    parseCAS base root = Except.ok (stratB base root initColleges) := by
  have hAeq : stratA base root initColleges = initColleges :=
    extends_init_allEmpty _ (stratA_extends base root initColleges) hA
  simp only [parseCAS]
  rw [hAeq]
  rw [if_pos (show allEmpty initColleges = true from rfl)]
  rw [if_neg (by rw [hB]; simp)]

/-- Witness for C5: the concrete split-header document, on which Strategy
A yields nothing and Strategy B attributes one school. -/
theorem fallback_uses_strategy_b_exactly_witness :
    parseCAS BASE_URL_CURRENT docB5 = Except.ok (stratB BASE_URL_CURRENT docB5 initColleges) ∧
    allEmpty (stratB BASE_URL_CURRENT docB5 initColleges) = false :=
  ⟨fallback_uses_strategy_b_exactly BASE_URL_CURRENT docB5 rfl rfl, rfl⟩

/-! ## The course-code pattern (towards C3) -/

theorem digit_not_upper (c : Char) (h : c.isDigit = true) : c.isUpper = false := by
  simp only [Char.isDigit, Char.isUpper, Bool.and_eq_true, decide_eq_true_eq] at h ⊢
  have h2 : c.val.toNat ≤ 57 := h.2
  cases hga : decide (c.val ≥ 65) with
  | false => simp
  | true =>
    have hge : (65 : UInt32) ≤ c.val := of_decide_eq_true hga
    have hge2 : 65 ≤ c.val.toNat := hge
    omega

theorem dropWhile_head_not (p : Char → Bool) (l : List Char) :
    ∀ c, (l.dropWhile p).head? = some c → p c = false := by
  induction l with
  | nil => intro c h; simp at h
  | cons x xs ih =>
    intro c h
    by_cases hp : p x = true
    · rw [List.dropWhile_cons, if_pos hp] at h
      exact ih c h
    · rw [List.dropWhile_cons, if_neg hp] at h
      have hx : x = c := Option.some.inj h
      rw [← hx]
      exact Bool.not_eq_true _ ▸ (by simpa using hp)

theorem stripL_last_not_ws (s : List Char) :
    ∀ c, (stripL s).getLast? = some c → c.isWhitespace = false := by
  intro c h
  unfold stripL at h
  rw [List.getLast?_reverse] at h
  exact dropWhile_head_not _ _ c h

theorem getLast?_append_right (l1 l2 : List Char) (h : l2 ≠ []) :
    (l1 ++ l2).getLast? = l2.getLast? := by
  rw [← List.head?_reverse, List.reverse_append, ← List.head?_reverse l2]
  cases hr : l2.reverse with
  | nil => exact absurd (List.reverse_eq_nil_iff.mp hr) h
  | cons y ys => simp

theorem flatten_last_not_ws (ps : List (List Char))
    (hp : ∀ p ∈ ps, ∀ c, p.getLast? = some c → c.isWhitespace = false) :
    ∀ c, ps.flatten.getLast? = some c → c.isWhitespace = false := by
  induction ps with
  | nil => intro c h; simp at h
  | cons q qs ih =>
    intro c h
    rw [List.flatten_cons] at h
    cases hq : qs.flatten with
    | nil =>
      rw [hq, List.append_nil] at h
      exact hp q (by simp) c h
    | cons y ys =>
      rw [hq, getLast?_append_right q (y :: ys) (by simp)] at h
      rw [← hq] at h
      exact ih (fun p hmem => hp p (by simp [hmem])) c h

theorem getTextStrip_last_not_ws (n : Node) :
    ∀ c, (getTextStrip n).getLast? = some c → c.isWhitespace = false := by
  unfold getTextStrip
  refine flatten_last_not_ws _ ?_
  intro p hp c hc
  obtain ⟨q, _, rfl⟩ := List.mem_map.mp hp
  exact stripL_last_not_ws q c hc

theorem cellText_no_trail (cells : List Node) (i : Nat) :
    ∀ ch, (cellText cells i).getLast? = some ch → ch.isWhitespace = false := by
  intro ch h
  unfold cellText at h
  split at h
  · exact getTextStrip_last_not_ws _ ch h
  · simp at h

theorem coreFull_of_pyMatch (s : List Char) (hm : pyMatchCode s = true)
    (hnt : ∀ c, s.getLast? = some c → c.isWhitespace = false) :
    coreFull s = true := by
  cases h1 : coreFull s with
  | true => rfl
  | false =>
    unfold pyMatchCode at hm
    rw [h1] at hm
    simp only [Bool.false_or, Bool.and_eq_true] at hm
    obtain ⟨hend, _⟩ := hm
    unfold endsNL at hend
    cases hg : s.getLast? with
    | none => rw [hg] at hend; simp at hend
    | some ch =>
      rw [hg] at hend
      have : ch = '\n' := by simpa using hend
      have hws := hnt ch hg
      rw [this] at hws
      exact absurd hws (by decide)

theorem takeWhile_append_all (p : Char → Bool) (l1 l2 : List Char)
    (h1 : ∀ x ∈ l1, p x = true) (h2 : l2.takeWhile p = []) :
    (l1 ++ l2).takeWhile p = l1 := by
  induction l1 with
  | nil => simpa using h2
  | cons x xs ih =>
    have hx : p x = true := h1 x (by simp)
    rw [List.cons_append, List.takeWhile_cons, if_pos hx,
      ih (fun y hy => h1 y (by simp [hy]))]

theorem coreFull_codeAt (s m : List Char) (h : codeAt s = some m) :
    coreFull m = true := by
  simp only [codeAt] at h
  split at h
  · split at h
    · have hm : m = s.takeWhile Char.isUpper ++
          ((s.drop (s.takeWhile Char.isUpper).length).takeWhile Char.isDigit) :=
        (Option.some.inj h).symm
      rename_i hlen2 hlen4
      have hupper : ∀ x ∈ s.takeWhile Char.isUpper, Char.isUpper x = true :=
        fun x hx => List.mem_takeWhile_imp hx
      have hdigits : ∀ x ∈ (s.drop (s.takeWhile Char.isUpper).length).takeWhile Char.isDigit,
          Char.isDigit x = true :=
        fun x hx => List.mem_takeWhile_imp hx
      have hdrop : ((s.drop (s.takeWhile Char.isUpper).length).takeWhile
          Char.isDigit).takeWhile Char.isUpper = [] := by
        cases hds : (s.drop (s.takeWhile Char.isUpper).length).takeWhile Char.isDigit with
        | nil => rfl
        | cons d ds =>
          have hd : Char.isDigit d = true := by
            refine hdigits d ?_
            rw [hds]; simp
          rw [List.takeWhile_cons, if_neg (by rw [digit_not_upper d hd]; simp)]
      unfold coreFull
      rw [hm, takeWhile_append_all Char.isUpper _ _ hupper hdrop]
      simp only [Bool.and_eq_true, decide_eq_true_eq]
      refine ⟨⟨hlen2, ?_⟩, ?_⟩
      · rw [List.drop_left]
        exact hlen4
      · rw [List.drop_left, List.all_eq_true]
        exact hdigits
    · exact absurd h (by simp)
  · exact absurd h (by simp)

theorem coreFull_searchCode : ∀ s m, searchCode s = some m → coreFull m = true := by
  intro s
  induction s with
  | nil => intro m h; simp [searchCode] at h
  | cons c cs ih =>
    intro m h
    cases hc : codeAt (c :: cs) with
    | some x =>
      simp only [searchCode, hc] at h
      exact coreFull_codeAt (c :: cs) m (by rw [hc, h])
    | none =>
      simp only [searchCode, hc] at h
      exact ih m h

theorem pyOrO_searchCode (a b m : List Char)
    (h : pyOrO (searchCode a) (searchCode b) = some m) : coreFull m = true := by
  unfold pyOrO at h
  cases ha : searchCode a with
  | some x =>
    rw [ha] at h
    exact coreFull_searchCode a m (by rw [ha, Option.some.inj h])
  | none =>
    rw [ha] at h
    exact coreFull_searchCode b m h

/-! ## Dict lemmas (towards C3) -/

theorem dlookup_dset_ne (d : Dict) (k k' v : List Char) (h : k' ≠ k) :
    dlookup k (dset d k' v) = dlookup k d := by
  induction d with
  | nil => simp [dset, dlookup, h]
  | cons e es ih =>
    by_cases he : (e.1 == k') = true
    · have he' : e.1 = k' := by simpa using he
      simp [dset, dlookup, he, he', h]
    · simp only [dset, he, Bool.false_eq_true, if_false]
      unfold dlookup
      split
      · rfl
      · exact ih

theorem dlookup_dupdate_none (a b : Dict) (k : List Char)
    (hb : dlookup k b = none) : dlookup k (dupdate a b) = dlookup k a := by
  induction b generalizing a with
  | nil => rfl
  | cons e es ih =>
    unfold dlookup at hb
    have hne : ¬((e.1 == k) = true) := by
      intro hk
      rw [if_pos hk] at hb
      exact Option.noConfusion hb
    rw [if_neg hne] at hb
    show dlookup k (dupdate (dset a e.1 e.2) es) = dlookup k a
    rw [ih (dset a e.1 e.2) hb]
    exact dlookup_dset_ne a k e.1 e.2 (by simpa using hne)

theorem dlookup_mkCourseDict (code name url av per cr : List Char) (subj : SubjectInfo) :
    dlookup ("code".data) (mkCourseDict code name url av per cr subj) = some code := by
  simp [mkCourseDict, dlookup]

theorem courseCodeOk_mk (code name url av per cr : List Char) (subj : SubjectInfo)
    (hc : coreFull code = true) :
    courseCodeOk (mkCourseDict code name url av per cr subj) = true := by
  unfold courseCodeOk
  rw [dlookup_mkCourseDict]
  exact hc

theorem courseCodeOk_dupdate (info dd : Dict)
    (hdd : dlookup ("code".data) dd = none) (h : courseCodeOk info = true) :
    courseCodeOk (dupdate info dd) = true := by
  unfold courseCodeOk at h ⊢
  rw [dlookup_dupdate_none _ _ _ hdd]
  exact h

/-! ## Course extraction preserves the code invariant (towards C3) -/

theorem foldl_all_preserved {β : Type}
    (f : List Dict × ScraperState → β → List Dict × ScraperState)
    (hf : ∀ q b, (∀ d ∈ q.1, courseCodeOk d = true) →
      ∀ d ∈ (f q b).1, courseCodeOk d = true)
    (l : List β) :
    ∀ q, (∀ d ∈ q.1, courseCodeOk d = true) →
      ∀ d ∈ (l.foldl f q).1, courseCodeOk d = true := by
  induction l with
  | nil => intro q hq; exact hq
  | cons b bs ih =>
    intro q hq
    rw [List.foldl_cons]
    exact ih (f q b) (hf q b hq)

theorem processRow_preserves (net : List Char → Option Node) (wf : List Char → Bool)
    (H : ∀ s u, dlookup ("code".data) (parseCourseDetails net wf s u).1 = none)
    (url : List Char) (subj : SubjectInfo) (i1 i2 i3 i4 i5 : Nat)
    (p : List Dict × ScraperState) (row : Node)
    (hp : ∀ d ∈ p.1, courseCodeOk d = true) :
    ∀ d ∈ (processRow net wf url subj i1 i2 i3 i4 i5 p row).1, courseCodeOk d = true := by
  intro d hd
  simp only [processRow] at hd
  repeat' split at hd
  all_goals
    first
    | exact hp d hd
    | · rcases List.mem_append.mp hd with hmem | hmem
        · exact hp d hmem
        · rw [List.mem_singleton.mp hmem]
          first
          | exact courseCodeOk_dupdate _ _ (H _ _)
              (courseCodeOk_mk _ _ _ _ _ _ _
                (coreFull_of_pyMatch _ (by assumption) (cellText_no_trail _ _)))
          | exact courseCodeOk_mk _ _ _ _ _ _ _
              (coreFull_of_pyMatch _ (by assumption) (cellText_no_trail _ _))

theorem processTable_preserves (net : List Char → Option Node) (wf : List Char → Bool)
    (H : ∀ s u, dlookup ("code".data) (parseCourseDetails net wf s u).1 = none)
    (url : List Char) (subj : SubjectInfo)
    (p : List Dict × ScraperState) (table : Node)
    (hp : ∀ d ∈ p.1, courseCodeOk d = true) :
    ∀ d ∈ (processTable net wf url subj p table).1, courseCodeOk d = true := by
  intro d hd
  simp only [processTable] at hd
  split at hd
  · exact hp d hd
  · exact foldl_all_preserved _
      (fun q b hq => processRow_preserves net wf H url subj _ _ _ _ _ q b hq)
      _ p hp d hd

theorem processLink_preserves (net : List Char → Option Node) (wf : List Char → Bool)
    (H : ∀ s u, dlookup ("code".data) (parseCourseDetails net wf s u).1 = none)
    (url : List Char) (subj : SubjectInfo)
    (p : List Dict × ScraperState) (link : Node)
    (hp : ∀ d ∈ p.1, courseCodeOk d = true) :
    ∀ d ∈ (processLink net wf url subj p link).1, courseCodeOk d = true := by
  intro d hd
  simp only [processLink] at hd
  repeat' split at hd
  all_goals
    first
    | exact hp d hd
    | · rcases List.mem_append.mp hd with hmem | hmem
        · exact hp d hmem
        · rw [List.mem_singleton.mp hmem]
          first
          | exact courseCodeOk_dupdate _ _ (H _ _)
              (courseCodeOk_mk _ _ _ _ _ _ _ (pyOrO_searchCode _ _ _ (by assumption)))
          | exact courseCodeOk_mk _ _ _ _ _ _ _ (pyOrO_searchCode _ _ _ (by assumption))

/-- C3 (amended): every candidate row or link whose code fails the
pattern is excluded, so every record `parse_courses` produces carries a
fully matching code at extraction time; and whenever the detail-page merge
supplies no `code` key of its own (hypothesis `H`), every record in the
final output still has a fully matching `^[A-Z]{2,}[0-9]{4,}$` code. -/
theorem course_codes_valid (net : List Char → Option Node) (wf : List Char → Bool)
    (st : ScraperState) (url : List Char) (subj : SubjectInfo)
    (H : ∀ s u, dlookup ("code".data) (parseCourseDetails net wf s u).1 = none) :
    (parseCourses net wf st url subj).1.all courseCodeOk = true := by
  rw [List.all_eq_true]
  intro d hd
  simp only [parseCourses] at hd
  cases hf : (fetchPage net wf st url).1 with
  | error e => simp [hf] at hd
  | ok pr =>
    obtain ⟨soup, st0⟩ := pr
    simp only [hf] at hd
    split at hd
    · exact foldl_all_preserved _
        (fun q b hq => processLink_preserves net wf H url subj q b hq)
        _ _ (fun d hd => absurd hd (List.not_mem_nil d)) d hd
    · exact foldl_all_preserved _
        (fun q b hq => processTable_preserves net wf H url subj q b hq)
        _ _ (fun d hd => absurd hd (List.not_mem_nil d)) d hd

theorem netW3_details_no_code :
    ∀ s u, dlookup ("code".data) (parseCourseDetails netW3 wfNever s u).1 = none := by
  intro s u
  unfold parseCourseDetails
  cases hf : (fetchPage netW3 wfNever s u).1 with
  | error e => rfl
  | ok pr =>
    obtain ⟨soup, st1⟩ := pr
    have hsoup : soup = docW3 := by
      have hsrc := fetchPage_ok_source netW3 wfNever s u soup st1 hf
      have hval : ∀ v d, netW3 v = some d → d = docW3 := by
        intro v d hv
        unfold netW3 at hv
        split at hv
        · exact (Option.some.inj hv).symm
        · exact Option.noConfusion hv
      rcases hsrc with h | h
      · exact hval _ _ h
      · exact hval _ _ h
    rw [hsoup]
    rfl

/-- Witness for the amended C3: on the concrete one-course page (whose
hypothetical detail reads produce no `code` key), every produced record's
code fully matches the pattern. -/
theorem course_codes_valid_witness :
    (parseCourses netW3 wfNever initState wUrl subjW3).1.all courseCodeOk = true :=
  course_codes_valid netW3 wfNever initState wUrl subjW3 netW3_details_no_code

/-- Counterexample to C3 as stated: a detail page whose caption-less table
has a row with header "Code" makes the generic detail extractor emit a
`code` key, and the merge overwrites the validated course code — the
stored record's code is `##notacode`, which does not match the pattern. -/
theorem course_code_overwritten_counterexample :
    ((parseCourses netB3 wfNever initState sbUrl subjB3).1.map (dlookup ("code".data))) =
      [some ("##notacode".data)] ∧
    (parseCourses netB3 wfNever initState sbUrl subjB3).1.all courseCodeOk = false :=
  ⟨rfl, rfl⟩

end DRPS
